import Mathlib

/-!
Verification of the mempool-monitor transaction store and worker against its
specification.  Transactions, the SHA-256 content address, the SQLite-backed
store (`database.rs`) and the worker loop (`worker.rs`) are shallowly embedded
as executable Lean definitions; bytes are `List Nat` with each element a byte
value, machine words are `Nat` reduced modulo an explicit power of two.
-/

set_option maxRecDepth 1000000

namespace MempoolMonitor

/-! ## Bytes and machine words -/

/-- Truncate to a 32-bit word. -/
def u32 (n : Nat) : Nat := n % 4294967296

/-- Big-endian byte string of a number, `k` bytes wide. -/
def beBytes : Nat → Nat → List Nat
  | 0, _ => []
  | k + 1, n => beBytes k (n >>> 8) ++ [n % 256]

/-- Little-endian byte string of a number, `k` bytes wide. -/
def leBytes : Nat → Nat → List Nat
  | 0, _ => []
  | k + 1, n => n % 256 :: leBytes k (n >>> 8)

/-- Little-endian 4-byte encoding of a 32-bit value. -/
def u32LE (n : Nat) : List Nat := leBytes 4 n

/-- Little-endian 8-byte encoding of a 64-bit value. -/
def u64LE (n : Nat) : List Nat := leBytes 8 n

/-! ## SHA-256 (executable, the hash used by `utils.rs::get_inputs_hash` and
by txid computation) -/

/-- SHA-256 round constants. -/
def shaK : List Nat := [
  1116352408, 1899447441, 3049323471, 3921009573, 961987163, 1508970993, 2453635748, 2870763221,
  3624381080, 310598401, 607225278, 1426881987, 1925078388, 2162078206, 2614888103, 3248222580,
  3835390401, 4022224774, 264347078, 604807628, 770255983, 1249150122, 1555081692, 1996064986,
  2554220882, 2821834349, 2952996808, 3210313671, 3336571891, 3584528711, 113926993, 338241895,
  666307205, 773529912, 1294757372, 1396182291, 1695183700, 1986661051, 2177026350, 2456956037,
  2730485921, 2820302411, 3259730800, 3345764771, 3516065817, 3600352804, 4094571909, 275423344,
  430227734, 506948616, 659060556, 883997877, 958139571, 1322822218, 1537002063, 1747873779,
  1955562222, 2024104815, 2227730452, 2361852424, 2428436474, 2756734187, 3204031479, 3329325298]

/-- SHA-256 initial hash state. -/
def shaInit : List Nat :=
  [1779033703, 3144134277, 1013904242, 2773480762, 1359893119, 2600822924, 528734635, 1541459225]

/-- Right rotation of a 32-bit word by `n` bits. -/
def rotr32 (n x : Nat) : Nat := Nat.lor (x >>> n) (u32 (x <<< (32 - n)))

/-- Bitwise complement of a 32-bit word. -/
def not32 (x : Nat) : Nat := Nat.xor x 4294967295

/-- SHA-256 choice function. -/
def shaCh (e f g : Nat) : Nat := Nat.xor (Nat.land e f) (Nat.land (not32 e) g)

/-- SHA-256 majority function. -/
def shaMaj (a b c : Nat) : Nat :=
  Nat.xor (Nat.land a b) (Nat.xor (Nat.land a c) (Nat.land b c))

/-- SHA-256 big sigma 0. -/
def bigSig0 (x : Nat) : Nat := Nat.xor (rotr32 2 x) (Nat.xor (rotr32 13 x) (rotr32 22 x))

/-- SHA-256 big sigma 1. -/
def bigSig1 (x : Nat) : Nat := Nat.xor (rotr32 6 x) (Nat.xor (rotr32 11 x) (rotr32 25 x))

/-- SHA-256 small sigma 0. -/
def smallSig0 (x : Nat) : Nat := Nat.xor (rotr32 7 x) (Nat.xor (rotr32 18 x) (x >>> 3))

/-- SHA-256 small sigma 1. -/
def smallSig1 (x : Nat) : Nat := Nat.xor (rotr32 17 x) (Nat.xor (rotr32 19 x) (x >>> 10))

/-- SHA-256 padding: append `0x80`, zero bytes, and the 64-bit big-endian bit
length so the total is a multiple of 64 bytes. -/
def padMsg (m : List Nat) : List Nat :=
  m ++ 128 :: List.replicate ((119 - m.length % 64) % 64) 0 ++ beBytes 8 (8 * m.length)

/-- Group bytes into big-endian 32-bit words. -/
def bytesToWords : List Nat → List Nat
  | a :: b :: c :: d :: rest => (((a * 256 + b) * 256 + c) * 256 + d) :: bytesToWords rest
  | _ => []

/-- Split a word list into 16-word blocks, with explicit fuel so the
recursion is structural (the fuel is the list length at the top call). -/
def chunk16Go : Nat → List Nat → List (List Nat)
  | 0, _ => []
  | _, [] => []
  | fuel + 1, w :: ws => (w :: ws).take 16 :: chunk16Go fuel ((w :: ws).drop 16)

/-- Split a word list into 16-word blocks. -/
def chunk16 (l : List Nat) : List (List Nat) := chunk16Go l.length l

/-- Working state of the SHA-256 compression function. -/
structure H8 where
  a : Nat
  b : Nat
  c : Nat
  d : Nat
  e : Nat
  f : Nat
  g : Nat
  h : Nat

/-- Sliding window of the next sixteen message-schedule words. -/
structure W16 where
  w0 : Nat
  w1 : Nat
  w2 : Nat
  w3 : Nat
  w4 : Nat
  w5 : Nat
  w6 : Nat
  w7 : Nat
  w8 : Nat
  w9 : Nat
  w10 : Nat
  w11 : Nat
  w12 : Nat
  w13 : Nat
  w14 : Nat
  w15 : Nat

/-- Load a 16-word block into the schedule window. -/
def blockToW16 (l : List Nat) : W16 :=
  ⟨l.getD 0 0, l.getD 1 0, l.getD 2 0, l.getD 3 0, l.getD 4 0, l.getD 5 0,
   l.getD 6 0, l.getD 7 0, l.getD 8 0, l.getD 9 0, l.getD 10 0, l.getD 11 0,
   l.getD 12 0, l.getD 13 0, l.getD 14 0, l.getD 15 0⟩

/-- One SHA-256 compression round: consume the window's head word and slide in
the next message-schedule word. -/
def shaRound (st : H8) (win : W16) (ki : Nat) : H8 × W16 :=
  let t1 := u32 (st.h + bigSig1 st.e + shaCh st.e st.f st.g + ki + win.w0)
  let t2 := u32 (bigSig0 st.a + shaMaj st.a st.b st.c)
  let nw := u32 (smallSig1 win.w14 + win.w9 + smallSig0 win.w1 + win.w0)
  (⟨u32 (t1 + t2), st.a, st.b, st.c, u32 (st.d + t1), st.e, st.f, st.g⟩,
   ⟨win.w1, win.w2, win.w3, win.w4, win.w5, win.w6, win.w7, win.w8, win.w9,
    win.w10, win.w11, win.w12, win.w13, win.w14, win.w15, nw⟩)

/-- Run one compression round per remaining round constant. -/
def shaRounds : H8 → W16 → List Nat → H8
  | st, _, [] => st
  | st, win, k :: ks =>
      let p := shaRound st win k
      shaRounds p.1 p.2 ks

/-- Compress one 16-word block into the running hash state. -/
def shaCompress (hs : List Nat) (block : List Nat) : List Nat :=
  let st0 : H8 := ⟨hs.getD 0 0, hs.getD 1 0, hs.getD 2 0, hs.getD 3 0,
    hs.getD 4 0, hs.getD 5 0, hs.getD 6 0, hs.getD 7 0⟩
  let st := shaRounds st0 (blockToW16 block) shaK
  [u32 (st0.a + st.a), u32 (st0.b + st.b), u32 (st0.c + st.c), u32 (st0.d + st.d),
   u32 (st0.e + st.e), u32 (st0.f + st.f), u32 (st0.g + st.g), u32 (st0.h + st.h)]

/-- SHA-256 of a byte string, as 32 digest bytes. -/
def sha256 (m : List Nat) : List Nat :=
  ((chunk16 (bytesToWords (padMsg m))).foldl shaCompress shaInit).flatMap (beBytes 4)

/-- Lowercase hex digit as an ASCII code. -/
def hexDigit (n : Nat) : Nat := if n < 10 then 48 + n else 87 + n

/-- Lowercase hex encoding of a byte string, as ASCII codes; models
`hex::encode` in `utils.rs`. -/
def hexEncode (bs : List Nat) : List Nat :=
  bs.flatMap fun b => [hexDigit (b / 16), hexDigit (b % 16)]

/-! ## Transactions (the `bitcoin::Transaction` structures used by the repo) -/

/-- A reference to a spent output: 32 txid bytes in internal order plus an
output index. -/
structure OutPoint where
  txid : List Nat
  vout : Nat
deriving DecidableEq, Repr

/-- A transaction input: outpoint, signature script, sequence number and
segregated witness stack. -/
structure TxIn where
  previous_output : OutPoint
  script_sig : List Nat
  sequence : Nat
  witness : List (List Nat)
deriving DecidableEq, Repr

/-- A transaction output: value in satoshis and output script. -/
structure TxOut where
  value : Nat
  script_pubkey : List Nat
deriving DecidableEq, Repr

/-- A transaction as the repo consumes it from `rust-bitcoin`. -/
structure Transaction where
  version : Nat
  lock_time : Nat
  input : List TxIn
  output : List TxOut
deriving DecidableEq, Repr

/-- Bitcoin CompactSize length prefix. -/
def varint (n : Nat) : List Nat :=
  if n < 253 then [n]
  else if n < 65536 then 253 :: leBytes 2 n
  else if n < 4294967296 then 254 :: leBytes 4 n
  else 255 :: leBytes 8 n

/-- Consensus encoding of a transaction input; per the Bitcoin wire format
(and `rust-bitcoin`'s `Encodable for TxIn`) the witness is not part of it. -/
def txinEncode (i : TxIn) : List Nat :=
  i.previous_output.txid ++ u32LE i.previous_output.vout ++
    varint i.script_sig.length ++ i.script_sig ++ u32LE i.sequence

/-- Consensus encoding of a transaction output. -/
def txoutEncode (o : TxOut) : List Nat :=
  u64LE o.value ++ varint o.script_pubkey.length ++ o.script_pubkey

/-- Consensus encoding of one witness stack: item count then length-prefixed
items. -/
def witnessEncode (w : List (List Nat)) : List Nat :=
  varint w.length ++ w.flatMap (fun item => varint item.length ++ item)

/-- Legacy (pre-segwit) consensus serialization of a transaction; also the
byte string whose double SHA-256 is the txid. -/
def legacyEncode (t : Transaction) : List Nat :=
  u32LE t.version ++ varint t.input.length ++ t.input.flatMap txinEncode ++
    varint t.output.length ++ t.output.flatMap txoutEncode ++ u32LE t.lock_time

/-- Segwit consensus serialization: marker and flag bytes, then inputs and
outputs, then one witness stack per input. -/
def segwitEncode (t : Transaction) : List Nat :=
  u32LE t.version ++ [0, 1] ++ varint t.input.length ++ t.input.flatMap txinEncode ++
    varint t.output.length ++ t.output.flatMap txoutEncode ++
    t.input.flatMap (fun i => witnessEncode i.witness) ++ u32LE t.lock_time

/-- Full consensus serialization, as produced by `tx.consensus_encode` in the
repo: segwit form exactly when some input carries a witness. -/
def consensusEncode (t : Transaction) : List Nat :=
  if t.input.any (fun i => !i.witness.isEmpty) then segwitEncode t else legacyEncode t

/-- The transaction id as raw digest bytes: double SHA-256 of the legacy
serialization.  Models `tx.compute_txid().to_raw_hash().as_byte_array()`. -/
def computeTxid (t : Transaction) : List Nat := sha256 (sha256 (legacyEncode t))

/-- The all-zero previous-output reference of a coinbase input. -/
def nullOutPoint : OutPoint := ⟨List.replicate 32 0, 4294967295⟩

/-- Whether the transaction is a coinbase: a single input spending the null
outpoint (`rust-bitcoin`'s `Transaction::is_coinbase`). -/
def isCoinbase (t : Transaction) : Bool :=
  match t.input with
  | [i] => decide (i.previous_output = nullOutPoint)
  | _ => false

/-! ## `utils.rs` -/

/-- Embeds `utils.rs::prune_large_witnesses`: clear every input witness in
place. -/
def prune_large_witnesses (t : Transaction) : Transaction :=
  { t with input := t.input.map fun i => { i with witness := [] } }

/-- Embeds `utils.rs::get_inputs_hash`: feed the consensus encoding of each
input, in order, into one SHA-256 engine and hex-encode the digest.  The
result models the returned `String` as its ASCII codes; the Rust function
always returns `Ok`. -/
def get_inputs_hash (inputs : List TxIn) : List Nat :=
  hexEncode (sha256 (inputs.flatMap txinEncode))

/-! ## The store (`database.rs`)

SQLite tables are modelled as row lists.  A stored key is either the TEXT hex
string produced by `get_inputs_hash` or the raw BLOB txid bytes used by the
coinbase path; SQLite never compares a TEXT equal to a BLOB, which the two
constructors reflect. -/

/-- A stored SQLite key value: TEXT (hex string as ASCII codes) or BLOB. -/
inductive SqlKey
  | text (s : List Nat)
  | blob (b : List Nat)
deriving DecidableEq, Repr

/-- One row of the `transactions` table. -/
structure TxRow where
  inputs_hash : SqlKey
  tx_id : List Nat
  tx_data : List Nat
  found_at : Nat
  mined_at : Nat
  pruned_at : Nat
  mempool_size : Nat
  mempool_tx_count : Nat
  parent_txid : Option (List Nat)
deriving DecidableEq, Repr

/-- One row of the `rbf` table (`inputs_hash` is its PRIMARY KEY). -/
structure RbfRow where
  inputs_hash : SqlKey
  created_at : Nat
  fee_total : Nat
deriving DecidableEq, Repr

/-- One row of the mempool-snapshot time series (the table itself is created
by code outside `src/`; shape per spec section 6). -/
structure SnapshotRow where
  recorded_at : Nat
  mempool_size : Nat
  mempool_tx_count : Nat
  block_height : Nat
  block_hash : List Nat
deriving DecidableEq, Repr

/-- The persistent store: the `transactions` and `rbf` tables plus the
snapshot series. -/
structure DBState where
  transactions : List TxRow
  rbf : List RbfRow
  snapshots : List SnapshotRow
deriving DecidableEq, Repr

/-- The empty store, as created by `Database::new` on a fresh file. -/
def emptyDB : DBState := ⟨[], [], []⟩

/-- SQLite `INSERT OR REPLACE` on the `transactions` PRIMARY KEY: delete any
row with the same `inputs_hash`, then append the new row. -/
def insertOrReplaceTx (r : TxRow) (tbl : List TxRow) : List TxRow :=
  tbl.filter (fun x => decide (x.inputs_hash ≠ r.inputs_hash)) ++ [r]

/-- SQLite `INSERT OR REPLACE` on the `rbf` PRIMARY KEY. -/
def insertOrReplaceRbf (r : RbfRow) (tbl : List RbfRow) : List RbfRow :=
  tbl.filter (fun x => decide (x.inputs_hash ≠ r.inputs_hash)) ++ [r]

/-- Error cases of the store operations that can actually fail in `src/`. -/
inductive DbError
  | queryReturnedNoRows
  | bincodeError
deriving DecidableEq, Repr

/-- Embeds `database.rs::record_coinbase_tx(tx, mempool_size, mempool_tx_count)`
with the wall clock passed explicitly (the Rust `Result` is `Ok` on every
path; only connection failures, outside this model, can error): no-op
unless coinbase; otherwise
INSERT OR REPLACE a row keyed (and identified) by the raw txid bytes, with
`found_at = now` and `mined_at`, `pruned_at` both computed as
`UNIX_EPOCH.duration_since(UNIX_EPOCH) = 0`. -/
def record_coinbase_tx (db : DBState) (now : Nat) (tx : Transaction)
    (mempool_size mempool_tx_count : Nat) : DBState :=
  if !isCoinbase tx then db
  else
    let key_bytes := computeTxid tx
    let tx_bytes := consensusEncode tx
    let row : TxRow := ⟨SqlKey.blob key_bytes, key_bytes, tx_bytes, now, 0, 0,
      mempool_size, mempool_tx_count, none⟩
    { db with transactions := insertOrReplaceTx row db.transactions }

/-- Embeds `database.rs::record_mined_tx` with the wall clock explicit: strip
witnesses, re-encode, and UPDATE `mined_at` and `tx_data` on every row whose
`inputs_hash` matches.  There is no lookup: an UPDATE matching no row is a
successful no-op, and the Rust `Result` is `Ok` on every path of the
function (only connection failures, outside this model, can error). -/
def record_mined_tx (db : DBState) (now : Nat) (tx : Transaction) : DBState :=
  let tx2 := prune_large_witnesses tx
  let tx_bytes := consensusEncode tx2
  let h := SqlKey.text (get_inputs_hash tx2.input)
  { db with transactions := db.transactions.map fun r =>
      if r.inputs_hash = h then { r with mined_at := now, tx_data := tx_bytes } else r }

/-- One iteration of `insert_mempool_tx`'s spend-chain loop: if some row's
`tx_id` equals the input's previous-output txid, set `parent_txid` on every
such row. -/
def parentLinkStep (tx_id : List Nat) (tbl : List TxRow) (i : TxIn) : List TxRow :=
  let parent := i.previous_output.txid
  if tbl.any (fun r => decide (r.tx_id = parent)) then
    tbl.map fun r =>
      if r.tx_id = parent then { r with parent_txid := some tx_id } else r
  else tbl

/-- The spend-chain loop of `insert_mempool_tx`, over the inputs in order. -/
def parentLinkPass (tx_id : List Nat) (tbl : List TxRow) (inputs : List TxIn) : List TxRow :=
  inputs.foldl (parentLinkStep tx_id) tbl

/-- Embeds `database.rs::insert_mempool_tx`: compute the inputs hash, encode
the transaction as-is (witnesses included), link `parent_txid` on every
existing row whose `tx_id` is spent by one of the new inputs, then
INSERT OR REPLACE the new row with `mined_at = pruned_at = 0` and `found_at`
as given (0 when absent). -/
def insert_mempool_tx (db : DBState) (tx : Transaction) (found_at : Option Nat)
    (mempool_size mempool_tx_count : Nat) : DBState :=
  let h := SqlKey.text (get_inputs_hash tx.input)
  let tx_bytes := consensusEncode tx
  let tx_id := computeTxid tx
  let fa := found_at.getD 0
  let tbl := parentLinkPass tx_id db.transactions tx.input
  let row : TxRow := ⟨h, tx_id, tx_bytes, fa, 0, 0, mempool_size, mempool_tx_count, none⟩
  { db with transactions := insertOrReplaceTx row tbl }

/-- Embeds `database.rs::tx_exists`: whether a `transactions` row exists for
the transaction's `inputs_hash`. -/
def tx_exists (db : DBState) (tx : Transaction) : Bool :=
  db.transactions.any fun r =>
    decide (r.inputs_hash = SqlKey.text (get_inputs_hash tx.input))

/-- Embeds `database.rs::record_rbf`: INSERT OR REPLACE one row into the
`rbf` table, keyed by its `inputs_hash` PRIMARY KEY; the `transactions`
table is not touched, no base-record lookup is performed, and the Rust
`Result` is `Ok` on every path (only connection failures, outside this
model, can error). -/
def record_rbf (db : DBState) (now : Nat) (tx : Transaction) (fee_total : Nat) : DBState :=
  let h := SqlKey.text (get_inputs_hash tx.input)
  { db with rbf := insertOrReplaceRbf ⟨h, now, fee_total⟩ db.rbf }

/-- Modelled from the spec: `update_txid_by_inputs_hash` is called by
`worker.rs` on the replacement path but is absent from `src/database.rs`;
per section 4.2 it "updates the record's txid/raw_bytes to the new replacing
transaction", looked up by `inputs_hash`. -/
def update_txid_by_inputs_hash (db : DBState) (tx : Transaction) : DBState :=
  let h := SqlKey.text (get_inputs_hash tx.input)
  { db with transactions := db.transactions.map fun r =>
      if r.inputs_hash = h then
        { r with tx_id := computeTxid tx, tx_data := consensusEncode tx }
      else r }

/-- Modelled from the spec: `txids_of_txs_not_in_list` is called by
`worker.rs::check_for_pruned_txs` but is absent from `src/database.rs`; per
sections 4.2 and 4.3 it returns the ids of the known outstanding
(non-terminal) records absent from the given current-mempool id set. -/
def txids_of_txs_not_in_list (db : DBState) (txids : List (List Nat)) : List (List Nat) :=
  (db.transactions.filter fun r =>
    decide (r.mined_at = 0) && decide (r.pruned_at = 0) &&
      !(txids.any fun t => decide (t = r.tx_id))).map (·.tx_id)

/-- Modelled from the spec: `record_pruned_txs` (the prune batch write,
`record_pruned_batch` in section 4.2) is called by `worker.rs` but is absent
from `src/database.rs`; for every record whose txid is in the given set and
whose `mined_at` and `pruned_at` are both still the sentinel it sets
`pruned_at = now`. -/
def record_pruned_txs (db : DBState) (now : Nat) (txids : List (List Nat)) : DBState :=
  { db with transactions := db.transactions.map fun r =>
      if (txids.any fun t => decide (t = r.tx_id)) &&
          decide (r.mined_at = 0) && decide (r.pruned_at = 0) then
        { r with pruned_at := now }
      else r }

/-! ## The `TransactionInner` bincode boundary

`record_pruned_tx` reads the `tx_data` blob back through
`bincode::deserialize::<TransactionInner>`.  The bincode layout is modelled
from the documented bincode 1.x defaults (little-endian, fixed-width
integers, `u64` collection lengths, trailing bytes tolerated by
`bincode::deserialize`) combined with `rust-bitcoin`'s serde layout for the
field types (hashes and scripts as length-prefixed byte strings, the lock
time as its consensus `u32`, `SystemTime` as seconds `u64` plus nanoseconds
`u32`). -/

/-- The `RBFInner` record of `database.rs` (a `SystemTime` as seconds and
nanoseconds, and a fee). -/
structure RBFInner where
  created_at : Nat × Nat
  fee_total : Nat
deriving DecidableEq, Repr

/-- The `TransactionInner` record of `database.rs`. -/
structure TransactionInner where
  inner : Transaction
  found_at : Nat × Nat
  mined_at : Nat × Nat
  pruned_at : Nat × Nat
  rbf_inner : List RBFInner
deriving DecidableEq, Repr

/-- Bincode byte-string encoding: `u64` length prefix then the bytes. -/
def binBytes (b : List Nat) : List Nat := u64LE b.length ++ b

/-- Bincode encoding of a transaction input. -/
def binTxIn (i : TxIn) : List Nat :=
  binBytes i.previous_output.txid ++ u32LE i.previous_output.vout ++
    binBytes i.script_sig ++ u32LE i.sequence ++
    u64LE i.witness.length ++ i.witness.flatMap binBytes

/-- Bincode encoding of a transaction output. -/
def binTxOut (o : TxOut) : List Nat := u64LE o.value ++ binBytes o.script_pubkey

/-- Bincode encoding of a transaction. -/
def binTx (t : Transaction) : List Nat :=
  u32LE t.version ++ u32LE t.lock_time ++
    u64LE t.input.length ++ t.input.flatMap binTxIn ++
    u64LE t.output.length ++ t.output.flatMap binTxOut

/-- Bincode encoding of a `SystemTime` (seconds, nanoseconds). -/
def binSystemTime (st : Nat × Nat) : List Nat := u64LE st.1 ++ u32LE st.2

/-- Bincode encoding of one `RBFInner`. -/
def binRBFInner (r : RBFInner) : List Nat := binSystemTime r.created_at ++ u64LE r.fee_total

/-- Bincode encoding of a whole `TransactionInner`, as
`bincode::serialize` produces it. -/
def binTI (ti : TransactionInner) : List Nat :=
  binTx ti.inner ++ binSystemTime ti.found_at ++ binSystemTime ti.mined_at ++
    binSystemTime ti.pruned_at ++ u64LE ti.rbf_inner.length ++
    ti.rbf_inner.flatMap binRBFInner

/-- Read exactly `n` bytes off the front. -/
def readBytesN : Nat → List Nat → Option (List Nat × List Nat)
  | 0, l => some ([], l)
  | _ + 1, [] => none
  | n + 1, b :: l => (readBytesN n l).map fun p => (b :: p.1, p.2)

/-- Little-endian value of a byte string. -/
def leVal (bs : List Nat) : Nat := bs.foldr (fun b acc => b + 256 * acc) 0

/-- Read a little-endian `u32`. -/
def readU32 (l : List Nat) : Option (Nat × List Nat) :=
  (readBytesN 4 l).map fun p => (leVal p.1, p.2)

/-- Read a little-endian `u64`. -/
def readU64 (l : List Nat) : Option (Nat × List Nat) :=
  (readBytesN 8 l).map fun p => (leVal p.1, p.2)

/-- Read a bincode byte string: `u64` length then that many bytes. -/
def readByteBuf (l : List Nat) : Option (List Nat × List Nat) :=
  match readU64 l with
  | none => none
  | some (n, l) => readBytesN n l

/-- Read `n` items with the given item reader. -/
def readMany {α : Type} (p : List Nat → Option (α × List Nat)) :
    Nat → List Nat → Option (List α × List Nat)
  | 0, l => some ([], l)
  | n + 1, l =>
      match p l with
      | none => none
      | some (a, l) =>
          match readMany p n l with
          | none => none
          | some (as, l) => some (a :: as, l)

/-- Read a bincode `Txid`: a byte string that must be exactly 32 bytes. -/
def readTxid (l : List Nat) : Option (List Nat × List Nat) :=
  match readByteBuf l with
  | none => none
  | some (b, l) => if b.length = 32 then some (b, l) else none

/-- Read a bincode transaction input. -/
def readTxIn (l : List Nat) : Option (TxIn × List Nat) :=
  match readTxid l with
  | none => none
  | some (txid, l) =>
  match readU32 l with
  | none => none
  | some (vout, l) =>
  match readByteBuf l with
  | none => none
  | some (script, l) =>
  match readU32 l with
  | none => none
  | some (seq, l) =>
  match readU64 l with
  | none => none
  | some (nw, l) =>
  match readMany readByteBuf nw l with
  | none => none
  | some (wit, l) => some (⟨⟨txid, vout⟩, script, seq, wit⟩, l)

/-- Read a bincode transaction output. -/
def readTxOut (l : List Nat) : Option (TxOut × List Nat) :=
  match readU64 l with
  | none => none
  | some (v, l) =>
  match readByteBuf l with
  | none => none
  | some (pk, l) => some (⟨v, pk⟩, l)

/-- Read a bincode `SystemTime`. -/
def readSystemTime (l : List Nat) : Option ((Nat × Nat) × List Nat) :=
  match readU64 l with
  | none => none
  | some (s, l) =>
  match readU32 l with
  | none => none
  | some (ns, l) => some ((s, ns), l)

/-- Read one bincode `RBFInner`. -/
def readRBFInner (l : List Nat) : Option (RBFInner × List Nat) :=
  match readSystemTime l with
  | none => none
  | some (st, l) =>
  match readU64 l with
  | none => none
  | some (fee, l) => some (⟨st, fee⟩, l)

/-- Models `bincode::deserialize::<TransactionInner>`: parse the front of the
byte string (trailing bytes are tolerated, as `bincode::deserialize` does). -/
def decodeTransactionInner (l : List Nat) : Option TransactionInner :=
  match readU32 l with
  | none => none
  | some (ver, l) =>
  match readU32 l with
  | none => none
  | some (lock, l) =>
  match readU64 l with
  | none => none
  | some (ni, l) =>
  match readMany readTxIn ni l with
  | none => none
  | some (ins, l) =>
  match readU64 l with
  | none => none
  | some (no, l) =>
  match readMany readTxOut no l with
  | none => none
  | some (outs, l) =>
  match readSystemTime l with
  | none => none
  | some (fa, l) =>
  match readSystemTime l with
  | none => none
  | some (ma, l) =>
  match readSystemTime l with
  | none => none
  | some (pa, l) =>
  match readU64 l with
  | none => none
  | some (nr, l) =>
  match readMany readRBFInner nr l with
  | none => none
  | some (rbf, _) => some ⟨⟨ver, lock, ins, outs⟩, fa, ma, pa, rbf⟩

/-- Embeds `database.rs::record_pruned_tx` with the wall clock explicit:
look the row up by `inputs_hash` (failing with no-rows when absent),
bincode-deserialize its `tx_data` (failing when the bytes do not parse),
stamp the inner `pruned_at` and write the re-serialized blob back into
`tx_data` only — the `pruned_at` column of the row is never part of the
UPDATE. -/
def record_pruned_tx (db : DBState) (now : Nat × Nat) (tx : Transaction) :
    Except DbError DBState :=
  let h := SqlKey.text (get_inputs_hash tx.input)
  match db.transactions.find? (fun r => decide (r.inputs_hash = h)) with
  | none => .error .queryReturnedNoRows
  | some r =>
    match decodeTransactionInner r.tx_data with
    | none => .error .bincodeError
    | some ti =>
      let bytes := binTI { ti with pruned_at := now }
      .ok { db with transactions := db.transactions.map fun r2 =>
        if r2.inputs_hash = h then { r2 with tx_data := bytes } else r2 }

/-- Modelled from the spec: `record_mempool_state` is called by `worker.rs`
but is absent from `src/database.rs`; per section 4.2 it appends one
`MempoolSnapshot` row. -/
def record_mempool_state (db : DBState) (now : Nat)
    (mempool_size mempool_tx_count block_height : Nat) (block_hash : List Nat) : DBState :=
  { db with snapshots := db.snapshots ++
      [⟨now, mempool_size, mempool_tx_count, block_height, block_hash⟩] }

/-! ## Consensus decoding (`Transaction::consensus_decode` as used by the
worker's `RawTx` path) -/

/-- Read a Bitcoin CompactSize, rejecting non-minimal encodings as
`rust-bitcoin` does. -/
def readVarint (l : List Nat) : Option (Nat × List Nat) :=
  match l with
  | [] => none
  | b :: l =>
    if b < 253 then some (b, l)
    else if b = 253 then
      match (readBytesN 2 l).map (fun p => (leVal p.1, p.2)) with
      | some (v, l) => if 253 ≤ v then some (v, l) else none
      | none => none
    else if b = 254 then
      match (readBytesN 4 l).map (fun p => (leVal p.1, p.2)) with
      | some (v, l) => if 65536 ≤ v then some (v, l) else none
      | none => none
    else
      match (readBytesN 8 l).map (fun p => (leVal p.1, p.2)) with
      | some (v, l) => if 4294967296 ≤ v then some (v, l) else none
      | none => none

/-- Read a CompactSize-prefixed byte string (script or witness item). -/
def readCScript (l : List Nat) : Option (List Nat × List Nat) :=
  match readVarint l with
  | none => none
  | some (n, l) => readBytesN n l

/-- Read one wire transaction input (witness left empty at this stage). -/
def readCTxIn (l : List Nat) : Option (TxIn × List Nat) :=
  match readBytesN 32 l with
  | none => none
  | some (txid, l) =>
  match readU32 l with
  | none => none
  | some (vout, l) =>
  match readCScript l with
  | none => none
  | some (script, l) =>
  match readU32 l with
  | none => none
  | some (seq, l) => some (⟨⟨txid, vout⟩, script, seq, []⟩, l)

/-- Read one wire transaction output. -/
def readCTxOut (l : List Nat) : Option (TxOut × List Nat) :=
  match readU64 l with
  | none => none
  | some (v, l) =>
  match readCScript l with
  | none => none
  | some (pk, l) => some (⟨v, pk⟩, l)

/-- Read one witness stack: a CompactSize item count then the items. -/
def readCWitness (l : List Nat) : Option (List (List Nat) × List Nat) :=
  match readVarint l with
  | none => none
  | some (n, l) => readMany readCScript n l

/-- Attach decoded witness stacks to the corresponding inputs. -/
def setWitnesses (ins : List TxIn) (ws : List (List (List Nat))) : List TxIn :=
  ins.zipWith (fun i w => { i with witness := w }) ws

/-- Models `Transaction::consensus_decode` on a byte slice: version, inputs
(with the `0x00 0x01` segwit marker detour), outputs, witnesses, lock time.
Trailing bytes are tolerated, as reading from a slice is. -/
def consensusDecode (l : List Nat) : Option Transaction :=
  match readU32 l with
  | none => none
  | some (ver, l) =>
  match readVarint l with
  | none => none
  | some (ni, l) =>
  if ni = 0 then
    -- possible segwit marker: a zero input count is the marker byte
    match l with
    | 1 :: l =>
      match readVarint l with
      | none => none
      | some (ni, l) =>
      match readMany readCTxIn ni l with
      | none => none
      | some (ins, l) =>
      match readVarint l with
      | none => none
      | some (no, l) =>
      match readMany readCTxOut no l with
      | none => none
      | some (outs, l) =>
      match readMany readCWitness ins.length l with
      | none => none
      | some (ws, l) =>
      match readU32 l with
      | none => none
      | some (lock, _) =>
        let ins := setWitnesses ins ws
        if !ins.isEmpty && ins.all (fun i => i.witness.isEmpty) then none
        else some ⟨ver, lock, ins, outs⟩
    | _ => none
  else
    match readMany readCTxIn ni l with
    | none => none
    | some (ins, l) =>
    match readVarint l with
    | none => none
    | some (no, l) =>
    match readMany readCTxOut no l with
    | none => none
    | some (outs, l) =>
    match readU32 l with
    | none => none
    | some (lock, _) => some ⟨ver, lock, ins, outs⟩

/-! ## The worker (`worker.rs`)

The node is an oracle of RPC results; the queue is the list of tasks still
to be received (an exhausted list is the closed queue).  Each `?` in the
source is a propagated `Except.error`; each `log and continue` is an `ok`
that moves to the next task. -/

/-- RPC responses the worker can observe from its node handle. -/
structure NodeOracle where
  getRawTransactionInfo : List Nat → Except Unit (Option Nat)
  getMempoolEntry : List Nat → Except Unit Nat
  getRawMempool : Except Unit (List (List Nat))
  getMempoolInfo : Except Unit (Nat × Nat)
  getBlockCount : Except Unit Nat
  getBlockHash : Nat → Except Unit (List Nat)

/-- The task variants of `worker.rs::Task`. -/
inductive Task
  | RawTx (bytes : List Nat)
  | PruneCheck
  | MempoolState
deriving DecidableEq, Repr

/-- An error that escapes the worker loop (a `?` in `TaskContext::run`). -/
inductive WorkerError
  | decodeError
  | rpcError
deriving DecidableEq, Repr

/-- Embeds `worker.rs::check_for_pruned_txs`: poll the node's mempool ids,
ask the store for outstanding ids absent from them, batch-mark those pruned. -/
def check_for_pruned_txs (node : NodeOracle) (now : Nat) (db : DBState) :
    Except Unit DBState :=
  match node.getRawMempool with
  | .error e => .error e
  | .ok txids =>
      .ok (record_pruned_txs db now (txids_of_txs_not_in_list db txids))

/-- Embeds one iteration of `TaskContext::run`'s match: process a single
task, returning `error` exactly where the source lets a `?` escape the loop
and `ok` (move to next task) where it logs and continues.  `worker.rs` calls
`record_coinbase_tx` and `insert_mempool_tx` without the mempool-size and
count arguments that `database.rs` declares; the model passes zeros for
them. -/
def runTask (node : NodeOracle) (now : Nat) (db : DBState) :
    Task → Except WorkerError DBState
  | .MempoolState =>
      match node.getMempoolInfo with
      | .error _ => .error .rpcError
      | .ok (bytes, size) =>
      match node.getBlockCount with
      | .error _ => .error .rpcError
      | .ok height =>
      match node.getBlockHash height with
      | .error _ => .error .rpcError
      | .ok hash =>
          -- record_mempool_state failure would be logged and skipped
          .ok (record_mempool_state db now bytes size height hash)
  | .PruneCheck =>
      match check_for_pruned_txs node now db with
      | .error _ => .ok db      -- log_error! macro: log and continue
      | .ok db => .ok db
  | .RawTx bytes =>
      match consensusDecode bytes with
      | none => .error .decodeError   -- the bare `?` on consensus_decode
      | some tx =>
      if isCoinbase tx then
        .ok (record_coinbase_tx db now tx 0 0)
      else
        let txid := computeTxid tx
        match node.getRawTransactionInfo txid with
        | .error _ => .ok db          -- log and continue
        | .ok confirmations =>
        let is_mined := confirmations.getD 0 > 0
        if tx_exists db tx then
          if is_mined then .ok (record_mined_tx db now tx)
          else
            match node.getMempoolEntry txid with
            | .error _ => .ok db      -- log and continue
            | .ok fee =>
                .ok (update_txid_by_inputs_hash (record_rbf db now tx fee) tx)
        else .ok (insert_mempool_tx db tx none 0 0)

/-- Embeds `TaskContext::run`: drain the queue until it is closed, stopping
early only when a task's propagated error escapes the loop. -/
def runWorker (node : NodeOracle) (now : Nat) (db : DBState) :
    List Task → Except WorkerError DBState
  | [] => .ok db
  | t :: ts =>
      match runTask node now db t with
      | .error e => .error e
      | .ok db => runWorker node now db ts

/-! ## Projections and concrete instances used by the claim theorems -/

/-- The part of an input that the inputs hash covers: previous output,
signature script and sequence — everything in its consensus encoding. -/
def inputSigView (i : TxIn) : OutPoint × List Nat × Nat :=
  (i.previous_output, i.script_sig, i.sequence)

/-- Forget exactly the fields `record_mined_tx` writes. -/
def eraseMinedData (r : TxRow) : TxRow := { r with mined_at := 0, tx_data := [] }

/-- Forget exactly the field `record_pruned_tx`'s UPDATE writes. -/
def eraseTxData (r : TxRow) : TxRow := { r with tx_data := [] }

/-- A fixed spent output used by the claim instances. -/
def c1OutPoint : OutPoint := ⟨List.replicate 32 17, 3⟩

/-- Spends `c1OutPoint` with sequence 0. -/
def c1TxA : Transaction := ⟨1, 0, [⟨c1OutPoint, [], 0, []⟩], []⟩

/-- Spends the same output as `c1TxA` but with sequence 1. -/
def c1TxB : Transaction := ⟨1, 0, [⟨c1OutPoint, [], 1, []⟩], []⟩

/-- Spends `c1OutPoint` with a witness item and a 10-satoshi output. -/
def c1TxC : Transaction := ⟨1, 0, [⟨c1OutPoint, [5], 0, [[1]]⟩], [⟨10, []⟩]⟩

/-- Same input list as `c1TxC` up to witness data, different output. -/
def c1TxD : Transaction := ⟨1, 0, [⟨c1OutPoint, [5], 0, []⟩], [⟨11, []⟩]⟩

/-- An outstanding (non-terminal) row with key `a`, id `[1]`. -/
def c2RowA : TxRow := ⟨SqlKey.text [97], [1], [], 5, 0, 0, 0, 0, none⟩

/-- An outstanding row with key `b`, id `[2]`. -/
def c2RowB : TxRow := ⟨SqlKey.text [98], [2], [], 5, 0, 0, 0, 0, none⟩

/-- An outstanding row with key `c`, id `[3]`. -/
def c2RowC : TxRow := ⟨SqlKey.text [99], [3], [], 5, 0, 0, 0, 0, none⟩

/-- A store holding outstanding records for ids `[1]`, `[2]`, `[3]`. -/
def c2DB : DBState := ⟨[c2RowA, c2RowB, c2RowC], [], []⟩

/-- A node whose mempool currently holds exactly id `[1]`. -/
def c2Node : NodeOracle :=
  ⟨fun _ => .ok none, fun _ => .ok 0, .ok [[1]], .ok (0, 0), .ok 0, fun _ => .ok []⟩

/-- A base transaction with one input and a 100-satoshi output. -/
def c3X : Transaction := ⟨1, 0, [⟨⟨List.replicate 32 2, 1⟩, [], 4294967293, []⟩], [⟨100, []⟩]⟩

/-- A replacement for `c3X`: identical input list, different output (hence a
different txid). -/
def c3X2 : Transaction := ⟨1, 0, [⟨⟨List.replicate 32 2, 1⟩, [], 4294967293, []⟩], [⟨90, []⟩]⟩

/-- A concrete coinbase transaction: one input spending the null outpoint. -/
def c4Coinbase : Transaction :=
  ⟨1, 0, [⟨nullOutPoint, [3, 3], 4294967295, []⟩], [⟨5000000000, [81]⟩]⟩

/-- A node oracle whose every call succeeds blandly. -/
def c5Node : NodeOracle :=
  ⟨fun _ => .ok none, fun _ => .ok 0, .ok [], .ok (0, 0), .ok 0, fun _ => .ok []⟩

/-- A small single-input transaction with no outputs. -/
def c6Tx : Transaction := ⟨1, 0, [⟨⟨List.replicate 32 1, 0⟩, [], 0, []⟩], []⟩

/-- A segwit transaction with a non-empty witness item. -/
def c7Tx : Transaction :=
  ⟨2, 0, [⟨⟨List.replicate 32 3, 0⟩, [], 4294967295, [[170]]⟩], [⟨7, [81]⟩]⟩

/-- A transaction crafted so that its consensus serialization also parses as
a bincode `TransactionInner`: the zero bytes of its txid land on the bincode
length and time fields, and its 12-byte output script supplies the remaining
zero counts. -/
def c10Tx : Transaction :=
  ⟨1, 0, [⟨⟨List.replicate 32 0, 0⟩, [], 0, []⟩], [⟨0, List.replicate 12 0⟩]⟩

/-- A single-input, no-output transaction whose 51-byte consensus
serialization is shorter than any bincode `TransactionInner`. -/
def c10SmallTx : Transaction := ⟨1, 0, [⟨⟨List.replicate 32 4, 0⟩, [], 0, []⟩], []⟩

/-! ## Helper lemmas -/

/-- The consensus encoding of an input ignores its witness stack. -/
theorem txinEncode_clear_witness (i : TxIn) :
    txinEncode { i with witness := [] } = txinEncode i := rfl

/-- Clearing witnesses does not change the byte stream fed to the inputs
hash. -/
theorem flatMap_txinEncode_clear (l : List TxIn) :
    ((l.map fun i => { i with witness := [] }).flatMap txinEncode) =
      l.flatMap txinEncode := by
  induction l with
  | nil => rfl
  | cons a l ih => simp only [List.map_cons, List.flatMap_cons, txinEncode_clear_witness, ih]

/-- Witness stripping never changes the inputs hash: the hash covers only the
consensus encoding of each input, which excludes the witness. -/
theorem get_inputs_hash_prune (t : Transaction) :
    get_inputs_hash (prune_large_witnesses t).input = get_inputs_hash t.input := by
  unfold get_inputs_hash prune_large_witnesses
  simp [flatMap_txinEncode_clear]

/-- A list filtered on the negation of `p` has no `p`-matches. -/
theorem countP_filter_not {α : Type} (l : List α) (p : α → Bool) :
    (l.filter fun a => !p a).countP p = 0 := by
  induction l with
  | nil => rfl
  | cons a l ih =>
      by_cases h : p a = true
      · simp [List.filter_cons, h, ih]
      · simp at h
        simp [List.filter_cons, h, List.countP_cons, ih]

/-- After INSERT OR REPLACE there is exactly one row with the new row's
key. -/
theorem countP_insertOrReplaceTx (r : TxRow) (tbl : List TxRow) :
    (insertOrReplaceTx r tbl).countP (fun x => decide (x.inputs_hash = r.inputs_hash)) = 1 := by
  unfold insertOrReplaceTx
  rw [List.countP_append]
  have h0 : (tbl.filter fun x => decide (x.inputs_hash ≠ r.inputs_hash)).countP
      (fun x => decide (x.inputs_hash = r.inputs_hash)) = 0 := by
    have h1 := countP_filter_not tbl (fun x => decide (x.inputs_hash = r.inputs_hash))
    simp only [ne_eq, decide_not]
    exact h1
  simp [h0]

/-- If nothing in the prefix matches, `find?` lands on the appended
element. -/
theorem find?_append_singleton {α : Type} (p : α → Bool) (l : List α) (a : α)
    (hl : ∀ x ∈ l, p x = false) (ha : p a = true) :
    (l ++ [a]).find? p = some a := by
  induction l with
  | nil => simp [List.find?, ha]
  | cons b l ih =>
      have hb := hl b (by simp)
      simp only [List.cons_append, List.find?, hb]
      exact ih fun x hx => hl x (by simp [hx])

/-- Looking the new row's key up after INSERT OR REPLACE finds the new
row. -/
theorem find?_insertOrReplaceTx (r : TxRow) (tbl : List TxRow) :
    (insertOrReplaceTx r tbl).find? (fun x => decide (x.inputs_hash = r.inputs_hash)) = some r := by
  unfold insertOrReplaceTx
  apply find?_append_singleton
  · intro x hx
    rcases List.mem_filter.mp hx with ⟨_, hne⟩
    simp at hne ⊢
    exact hne
  · simp

/-- Mapping a key-preserving row transformer leaves the key column
unchanged. -/
theorem keys_map_of_preserve (l : List TxRow) (f : TxRow → TxRow)
    (hf : ∀ r, (f r).inputs_hash = r.inputs_hash) :
    (l.map f).map (·.inputs_hash) = l.map (·.inputs_hash) := by
  induction l with
  | nil => rfl
  | cons a l ih => simp [hf, ih]

/-- One spend-chain step leaves the key column unchanged. -/
theorem keys_parentLinkStep (tx_id : List Nat) (tbl : List TxRow) (i : TxIn) :
    (parentLinkStep tx_id tbl i).map (·.inputs_hash) = tbl.map (·.inputs_hash) := by
  dsimp only [parentLinkStep]
  split
  · apply keys_map_of_preserve
    intro r
    by_cases hr : r.tx_id = i.previous_output.txid <;> simp [hr]
  · rfl

/-- The whole spend-chain pass leaves the key column unchanged. -/
theorem keys_parentLinkPass (tx_id : List Nat) (tbl : List TxRow) (inputs : List TxIn) :
    (parentLinkPass tx_id tbl inputs).map (·.inputs_hash) = tbl.map (·.inputs_hash) := by
  induction inputs generalizing tbl with
  | nil => rfl
  | cons i l ih =>
      unfold parentLinkPass at *
      simp only [List.foldl_cons]
      rw [ih, keys_parentLinkStep]

/-- INSERT OR REPLACE preserves distinctness of the key column. -/
theorem nodup_keys_insertOrReplaceTx (r : TxRow) (tbl : List TxRow)
    (h : (tbl.map (·.inputs_hash)).Nodup) :
    ((insertOrReplaceTx r tbl).map (·.inputs_hash)).Nodup := by
  unfold insertOrReplaceTx
  rw [List.map_append]
  apply List.Nodup.append
  · have hsub : ((tbl.filter fun x => decide (x.inputs_hash ≠ r.inputs_hash)).map
        (·.inputs_hash)).Sublist (tbl.map (·.inputs_hash)) :=
      (List.filter_sublist _).map _
    exact hsub.nodup h
  · simp
  · intro k hk1 hk2
    simp at hk2
    subst hk2
    rcases List.mem_map.mp hk1 with ⟨x, hx, hkey⟩
    rcases List.mem_filter.mp hx with ⟨_, hne⟩
    simp at hne
    exact hne hkey

/-- Counting matches of a key after INSERT OR REPLACE into the `rbf`
table. -/
theorem countP_insertOrReplaceRbf (r : RbfRow) (tbl : List RbfRow) :
    (insertOrReplaceRbf r tbl).countP (fun x => decide (x.inputs_hash = r.inputs_hash)) = 1 := by
  unfold insertOrReplaceRbf
  rw [List.countP_append]
  have h0 : (tbl.filter fun x => decide (x.inputs_hash ≠ r.inputs_hash)).countP
      (fun x => decide (x.inputs_hash = r.inputs_hash)) = 0 := by
    have h1 := countP_filter_not tbl (fun x => decide (x.inputs_hash = r.inputs_hash))
    simp only [ne_eq, decide_not]
    exact h1
  simp [h0]

/-- A key lookup commutes with mapping a key-preserving row transformer. -/
theorem find?_map_key_preserve (l : List TxRow) (f : TxRow → TxRow) (k : SqlKey)
    (hf : ∀ r, (f r).inputs_hash = r.inputs_hash) :
    (l.map f).find? (fun r => decide (r.inputs_hash = k)) =
      (l.find? fun r => decide (r.inputs_hash = k)).map f := by
  induction l with
  | nil => rfl
  | cons a l ih =>
      by_cases h : a.inputs_hash = k
      · simp [List.find?, hf, h]
      · have hfa : decide ((f a).inputs_hash = k) = false := by simp [hf, h]
        have haa : decide (a.inputs_hash = k) = false := by simp [h]
        simp only [List.map_cons, List.find?, hfa, haa]
        exact ih

/-- Equality of the hash-relevant views of two input lists forces equality of
the hashed byte streams. -/
theorem flatMap_txinEncode_of_sigView (l1 l2 : List TxIn)
    (h : l1.map inputSigView = l2.map inputSigView) :
    l1.flatMap txinEncode = l2.flatMap txinEncode := by
  induction l1 generalizing l2 with
  | nil => cases l2 with
    | nil => rfl
    | cons b l2 => simp at h
  | cons a l1 ih =>
      cases l2 with
      | nil => simp at h
      | cons b l2 =>
          simp only [List.map_cons, List.cons.injEq] at h
          obtain ⟨h1, h2⟩ := h
          have hp : a.previous_output = b.previous_output := congrArg Prod.fst h1
          have hs : a.script_sig = b.script_sig := congrArg (fun p => p.2.1) h1
          have hq : a.sequence = b.sequence := congrArg (fun p => p.2.2) h1
          have he : txinEncode a = txinEncode b := by
            unfold txinEncode
            rw [hp, hs, hq]
          simp only [List.flatMap_cons, he, ih l2 h2]

/-- Reading `n` bytes consumes exactly `n` bytes. -/
theorem readBytesN_length {n : Nat} {l v rest : List Nat}
    (h : readBytesN n l = some (v, rest)) : l.length = n + rest.length := by
  induction n generalizing l v rest with
  | zero =>
      unfold readBytesN at h
      injection h with h'
      injection h' with h1 h2
      subst h2
      simp
  | succ n ih =>
      cases l with
      | nil => cases h
      | cons b l =>
          unfold readBytesN at h
          cases hb : readBytesN n l with
          | none => rw [hb] at h; cases h
          | some p =>
              obtain ⟨p1, p2⟩ := p
              rw [hb] at h
              injection h with h'
              injection h' with h1 h2
              subst h2
              have := ih hb
              simp [this]
              omega

/-- Reading a `u32` consumes exactly four bytes. -/
theorem readU32_length {l rest : List Nat} {v : Nat}
    (h : readU32 l = some (v, rest)) : l.length = 4 + rest.length := by
  unfold readU32 at h
  cases hb : readBytesN 4 l with
  | none => rw [hb] at h; cases h
  | some p =>
      rw [hb] at h
      injection h with h'
      injection h' with h1 h2
      subst h2
      exact readBytesN_length hb

/-- Reading a `u64` consumes exactly eight bytes. -/
theorem readU64_length {l rest : List Nat} {v : Nat}
    (h : readU64 l = some (v, rest)) : l.length = 8 + rest.length := by
  unfold readU64 at h
  cases hb : readBytesN 8 l with
  | none => rw [hb] at h; cases h
  | some p =>
      rw [hb] at h
      injection h with h'
      injection h' with h1 h2
      subst h2
      exact readBytesN_length hb

/-- A byte-string read never leaves more than it was given. -/
theorem readByteBuf_rest_le {l : List Nat} {v rest : List Nat}
    (h : readByteBuf l = some (v, rest)) : rest.length ≤ l.length := by
  unfold readByteBuf at h
  split at h
  · cases h
  rename_i n l1 h1
  have e1 := readU64_length h1
  have e2 := readBytesN_length h
  omega

/-- Reading a `SystemTime` consumes exactly twelve bytes. -/
theorem readSystemTime_length {l rest : List Nat} {v : Nat × Nat}
    (h : readSystemTime l = some (v, rest)) : l.length = 12 + rest.length := by
  unfold readSystemTime at h
  split at h
  · cases h
  rename_i s l1 h1
  split at h
  · cases h
  rename_i ns l2 h2
  injection h with h'
  injection h' with hx hy
  subst hy
  have e1 := readU64_length h1
  have e2 := readU32_length h2
  omega

/-- A txid read never leaves more than it was given. -/
theorem readTxid_rest_le {l : List Nat} {v rest : List Nat}
    (h : readTxid l = some (v, rest)) : rest.length ≤ l.length := by
  unfold readTxid at h
  split at h
  · cases h
  rename_i b l1 h1
  split at h
  · injection h with h'
    injection h' with hx hy
    subst hy
    exact readByteBuf_rest_le h1
  · cases h

/-- Reading a fixed number of items never leaves more than it was given. -/
theorem readMany_rest_le {α : Type} {p : List Nat → Option (α × List Nat)}
    (hp : ∀ (l : List Nat) (a : α) (rest : List Nat),
      p l = some (a, rest) → rest.length ≤ l.length) :
    ∀ (n : Nat) (l : List Nat) (as : List α) (rest : List Nat),
      readMany p n l = some (as, rest) → rest.length ≤ l.length := by
  intro n
  induction n with
  | zero =>
      intro l as rest h
      unfold readMany at h
      injection h with h'
      injection h' with hx hy
      subst hy
      exact Nat.le_refl _
  | succ n ih =>
      intro l as rest h
      unfold readMany at h
      split at h
      · cases h
      rename_i a l1 h1
      split at h
      · cases h
      rename_i as2 l2 h2
      injection h with h'
      injection h' with hx hy
      subst hy
      exact Nat.le_trans (ih l1 as2 l2 h2) (hp l a l1 h1)

/-- Reading one bincode transaction input never leaves more than it was
given. -/
theorem readTxIn_rest_le {l : List Nat} {v : TxIn} {rest : List Nat}
    (h : readTxIn l = some (v, rest)) : rest.length ≤ l.length := by
  unfold readTxIn at h
  split at h
  · cases h
  rename_i txid l1 h1
  split at h
  · cases h
  rename_i vout l2 h2
  split at h
  · cases h
  rename_i script l3 h3
  split at h
  · cases h
  rename_i seq l4 h4
  split at h
  · cases h
  rename_i nw l5 h5
  split at h
  · cases h
  rename_i wit l6 h6
  injection h with h'
  injection h' with hx hy
  subst hy
  have e1 := readTxid_rest_le h1
  have e2 := readU32_length h2
  have e3 := readByteBuf_rest_le h3
  have e4 := readU32_length h4
  have e5 := readU64_length h5
  have e6 := readMany_rest_le (fun l a rest hh => readByteBuf_rest_le hh) nw l5 wit l6 h6
  omega

/-- Reading one bincode transaction output never leaves more than it was
given. -/
theorem readTxOut_rest_le {l : List Nat} {v : TxOut} {rest : List Nat}
    (h : readTxOut l = some (v, rest)) : rest.length ≤ l.length := by
  unfold readTxOut at h
  split at h
  · cases h
  rename_i value l1 h1
  split at h
  · cases h
  rename_i pk l2 h2
  injection h with h'
  injection h' with hx hy
  subst hy
  have e1 := readU64_length h1
  have e2 := readByteBuf_rest_le h2
  omega

/-- No byte string shorter than 68 bytes parses as a bincode
`TransactionInner`: a successful parse consumes at least the version, lock
time, two collection counts, three `SystemTime`s and the replacement-list
count. -/
theorem decodeTransactionInner_min_length (l : List Nat) (ti : TransactionInner)
    (h : decodeTransactionInner l = some ti) : 68 ≤ l.length := by
  unfold decodeTransactionInner at h
  split at h
  · cases h
  rename_i ver l1 h1
  split at h
  · cases h
  rename_i lock l2 h2
  split at h
  · cases h
  rename_i ni l3 h3
  split at h
  · cases h
  rename_i ins l4 h4
  split at h
  · cases h
  rename_i no l5 h5
  split at h
  · cases h
  rename_i outs l6 h6
  split at h
  · cases h
  rename_i fa l7 h7
  split at h
  · cases h
  rename_i ma l8 h8
  split at h
  · cases h
  rename_i pa l9 h9
  split at h
  · cases h
  rename_i nr l10 h10
  split at h
  · cases h
  rename_i rbf l11 h11
  have e1 := readU32_length h1
  have e2 := readU32_length h2
  have e3 := readU64_length h3
  have e4 := readMany_rest_le (fun l a rest hh => readTxIn_rest_le hh) ni l3 ins l4 h4
  have e5 := readU64_length h5
  have e6 := readMany_rest_le (fun l a rest hh => readTxOut_rest_le hh) no l5 outs l6 h6
  have e7 := readSystemTime_length h7
  have e8 := readSystemTime_length h8
  have e9 := readSystemTime_length h9
  have e10 := readU64_length h10
  omega

/-! ## Claim C1 — the content address -/

/-- Claim C1, counterexample: two transactions declaring the same spent
outputs in the same order can still have different inputs hashes, because
the hash also covers the signature script and the sequence number — here the
two inputs differ only in their sequence. -/
theorem c1_counterexample :
    (c1TxA.input.map fun i => i.previous_output) =
      (c1TxB.input.map fun i => i.previous_output) ∧
    get_inputs_hash c1TxA.input ≠ get_inputs_hash c1TxB.input :=
  ⟨rfl, by decide⟩

/-- Claim C1, amended: the inputs hash is a deterministic function of the
full consensus view of the input list — previous output, signature script
and sequence of each input, in order, witness excluded — so two
transactions whose input lists agree on that view have equal hashes even
when their txids differ. -/
theorem c1_amended (t1 t2 : Transaction)
    (h : t1.input.map inputSigView = t2.input.map inputSigView) :
    get_inputs_hash t1.input = get_inputs_hash t2.input := by
  unfold get_inputs_hash
  rw [flatMap_txinEncode_of_sigView t1.input t2.input h]

/-- Claim C1, witness: two concrete transactions with hash-equal input views
(differing in witness data) and different outputs have equal inputs hashes
and different txids. -/
theorem c1_witness :
    c1TxC.input.map inputSigView = c1TxD.input.map inputSigView ∧
    computeTxid c1TxC ≠ computeTxid c1TxD ∧
    get_inputs_hash c1TxC.input = get_inputs_hash c1TxD.input :=
  ⟨by decide, by decide, c1_amended c1TxC c1TxD (by decide)⟩

/-! ## Claim C4 — the coinbase path -/

/-- Claim C4, evaluation at the failing input: for a coinbase transaction at
wall-clock time 1735689600 the inserted record is keyed by the raw txid with
`found_at = 1735689600` but `mined_at = 0` — the sentinel, not the current
time the spec requires — while `pruned_at` is the sentinel and non-coinbase
transactions are a no-op as specified. -/
theorem c4_failing_eval :
    (record_coinbase_tx emptyDB 1735689600 c4Coinbase 10 2).transactions.map
        (fun r => (r.inputs_hash, r.tx_id, r.found_at, r.mined_at, r.pruned_at)) =
      [(SqlKey.blob (computeTxid c4Coinbase), computeTxid c4Coinbase, 1735689600, 0, 0)] ∧
    record_coinbase_tx emptyDB 1735689600 c1TxA 10 2 = emptyDB := by
  exact ⟨by decide, by decide⟩

/-! ## Claim C2 — the prune sweep -/

/-- Claim C2: with outstanding records for three distinct ids and a node
mempool holding only the first, the prune check marks exactly the other two
as pruned at the sweep time and leaves the first untouched; and in general a
record whose `mined_at` is already non-sentinel is never touched by the
sweep, whatever the polled mempool is. -/
theorem c2_thm (node : NodeOracle) (db : DBState) (now : Nat) (rA rB rC : TxRow)
    (hdb : db.transactions = [rA, rB, rC])
    (hNode : node.getRawMempool = .ok [rA.tx_id])
    (hA : rA.mined_at = 0 ∧ rA.pruned_at = 0)
    (hB : rB.mined_at = 0 ∧ rB.pruned_at = 0)
    (hC : rC.mined_at = 0 ∧ rC.pruned_at = 0)
    (hBA : rB.tx_id ≠ rA.tx_id) (hCA : rC.tx_id ≠ rA.tx_id) :
    check_for_pruned_txs node now db =
      .ok { db with transactions :=
        [rA, { rB with pruned_at := now }, { rC with pruned_at := now }] } ∧
    ∀ (db2 : DBState) (ids : List (List Nat)) (i : Nat) (r0 : TxRow),
      db2.transactions[i]? = some r0 → r0.mined_at ≠ 0 →
      (record_pruned_txs db2 now (txids_of_txs_not_in_list db2 ids)).transactions[i]? =
        some r0 := by
  constructor
  · unfold check_for_pruned_txs
    rw [hNode]
    unfold record_pruned_txs txids_of_txs_not_in_list
    rw [hdb]
    simp [hA.1, hA.2, hB.1, hB.2, hC.1, hC.2, hBA, hCA, Ne.symm hBA, Ne.symm hCA]
  · intro db2 ids i r0 hget hmined
    unfold record_pruned_txs
    simp only [List.getElem?_map, hget, Option.map_some]
    simp [hmined]

/-- Claim C2, witness: the sweep on the concrete three-row store with the
node reporting only id `[1]` marks exactly the `[2]` and `[3]` rows. -/
theorem c2_witness :
    check_for_pruned_txs c2Node 99 c2DB =
      .ok { c2DB with transactions :=
        [c2RowA, { c2RowB with pruned_at := 99 }, { c2RowC with pruned_at := 99 }] } :=
  (c2_thm c2Node c2DB 99 c2RowA c2RowB c2RowC rfl rfl ⟨rfl, rfl⟩ ⟨rfl, rfl⟩ ⟨rfl, rfl⟩
    (by decide) (by decide)).1

/-! ## Claim C3 — replacement sequencing -/

/-- Claim C3, counterexample: the `rbf` table is not append-only — after a
base insert and two replacement events on the same inputs hash it holds one
row carrying only the second event, because `inputs_hash` is the table's
PRIMARY KEY and the write is INSERT OR REPLACE. -/
theorem c3_counterexample :
    (record_rbf (record_rbf (insert_mempool_tx emptyDB c3X (some 5) 0 0) 10 c3X2 200)
        20 c3X2 300).rbf =
      [⟨SqlKey.text (get_inputs_hash c3X.input), 20, 300⟩] := by decide

/-- Claim C3, amended: inserting base `X` and then processing an unconfirmed
replacement `X2` with the same inputs adds exactly one `rbf` row for the
shared inputs hash (the table grows by one, holds exactly one row for that
key, and that row carries the replacement's time and fee), and the record's
txid afterwards reads `X2`'s id; but the table keeps at most one row per
inputs hash — a later replacement event replaces this row instead of being
appended after it. -/
theorem c3_thm (db : DBState) (X X2 : Transaction) (T sz cnt fee now : Nat)
    (hIn : X2.input = X.input)
    (hRbf : ∀ r ∈ db.rbf, r.inputs_hash ≠ SqlKey.text (get_inputs_hash X.input)) :
    (update_txid_by_inputs_hash
        (record_rbf (insert_mempool_tx db X (some T) sz cnt) now X2 fee) X2).rbf.length =
      db.rbf.length + 1 ∧
    (update_txid_by_inputs_hash
        (record_rbf (insert_mempool_tx db X (some T) sz cnt) now X2 fee) X2).rbf.countP
        (fun r => decide (r.inputs_hash = SqlKey.text (get_inputs_hash X.input))) = 1 ∧
    (update_txid_by_inputs_hash
        (record_rbf (insert_mempool_tx db X (some T) sz cnt) now X2 fee) X2).rbf.getLast? =
      some ⟨SqlKey.text (get_inputs_hash X.input), now, fee⟩ ∧
    ((update_txid_by_inputs_hash
        (record_rbf (insert_mempool_tx db X (some T) sz cnt) now X2 fee) X2).transactions.find?
        (fun r => decide (r.inputs_hash = SqlKey.text (get_inputs_hash X.input)))).map
      (fun r => r.tx_id) = some (computeTxid X2) := by
  have hk : SqlKey.text (get_inputs_hash X2.input) = SqlKey.text (get_inputs_hash X.input) := by
    rw [hIn]
  have hs1rbf : (update_txid_by_inputs_hash
      (record_rbf (insert_mempool_tx db X (some T) sz cnt) now X2 fee) X2).rbf =
      insertOrReplaceRbf ⟨SqlKey.text (get_inputs_hash X2.input), now, fee⟩ db.rbf := rfl
  have hfil : db.rbf.filter
      (fun x => decide (x.inputs_hash ≠ SqlKey.text (get_inputs_hash X2.input))) = db.rbf := by
    rw [hk]
    exact List.filter_eq_self.mpr fun a ha => by simpa using hRbf a ha
  refine ⟨?_, ?_, ?_, ?_⟩
  · rw [hs1rbf]
    unfold insertOrReplaceRbf
    rw [hfil, List.length_append]
    rfl
  · rw [hs1rbf, ← hk]
    exact countP_insertOrReplaceRbf
      ⟨SqlKey.text (get_inputs_hash X2.input), now, fee⟩ db.rbf
  · rw [hs1rbf, ← hk]
    unfold insertOrReplaceRbf
    exact List.getLast?_concat _
  · have hs1tx : (update_txid_by_inputs_hash
        (record_rbf (insert_mempool_tx db X (some T) sz cnt) now X2 fee) X2).transactions =
        (insert_mempool_tx db X (some T) sz cnt).transactions.map (fun r =>
          if r.inputs_hash = SqlKey.text (get_inputs_hash X2.input) then
            { r with tx_id := computeTxid X2, tx_data := consensusEncode X2 }
          else r) := rfl
    rw [hs1tx, ← hk]
    rw [find?_map_key_preserve _ _ _ (fun r => by
      by_cases hr : r.inputs_hash = SqlKey.text (get_inputs_hash X2.input) <;> simp [hr])]
    have hfind : (insert_mempool_tx db X (some T) sz cnt).transactions.find?
        (fun r => decide (r.inputs_hash = SqlKey.text (get_inputs_hash X2.input))) =
        some ⟨SqlKey.text (get_inputs_hash X.input), computeTxid X, consensusEncode X,
          T, 0, 0, sz, cnt, none⟩ := by
      rw [hk]
      exact find?_insertOrReplaceTx
        ⟨SqlKey.text (get_inputs_hash X.input), computeTxid X, consensusEncode X,
          T, 0, 0, sz, cnt, none⟩
        (parentLinkPass (computeTxid X) db.transactions X.input)
    rw [hfind]
    simp [hk]

/-- Claim C3, witness: the amended statement at the concrete base `c3X` and
replacement `c3X2` over the empty store. -/
theorem c3_witness :
    (update_txid_by_inputs_hash
        (record_rbf (insert_mempool_tx emptyDB c3X (some 5) 0 0) 20 c3X2 300) c3X2).rbf.length =
      emptyDB.rbf.length + 1 ∧
    (update_txid_by_inputs_hash
        (record_rbf (insert_mempool_tx emptyDB c3X (some 5) 0 0) 20 c3X2 300) c3X2).rbf.countP
        (fun r => decide (r.inputs_hash = SqlKey.text (get_inputs_hash c3X.input))) = 1 ∧
    (update_txid_by_inputs_hash
        (record_rbf (insert_mempool_tx emptyDB c3X (some 5) 0 0) 20 c3X2 300) c3X2).rbf.getLast? =
      some ⟨SqlKey.text (get_inputs_hash c3X.input), 20, 300⟩ ∧
    ((update_txid_by_inputs_hash
        (record_rbf (insert_mempool_tx emptyDB c3X (some 5) 0 0) 20 c3X2 300)
        c3X2).transactions.find?
        (fun r => decide (r.inputs_hash = SqlKey.text (get_inputs_hash c3X.input)))).map
      (fun r => r.tx_id) = some (computeTxid c3X2) :=
  c3_thm emptyDB c3X c3X2 5 0 0 300 20 rfl (by simp [emptyDB])

/-! ## Claim C5 — worker error isolation -/

/-- Claim C5, counterexample: a `RawTx` task whose bytes fail to decode
terminates the worker loop with an error — the queued `PruneCheck` behind it
is never processed — instead of being logged and skipped. -/
theorem c5_counterexample :
    runWorker c5Node 5 emptyDB [Task.RawTx [255], Task.PruneCheck] =
      .error WorkerError.decodeError := rfl

/-- Claim C5, amended: a decode failure in a `RawTx` task is fatal — the
error propagates out of the worker loop and the remaining tasks are never
processed — and so is a mempool-info RPC failure on the `MempoolState`
path; only the transaction-info and fee lookups on the `RawTx` path and the
mempool poll inside the `PruneCheck` path are logged, after which the
worker continues with the next task. -/
theorem c5_thm :
    (∀ (node : NodeOracle) (now : Nat) (db : DBState) (bytes : List Nat) (ts : List Task),
      consensusDecode bytes = none →
      runWorker node now db (Task.RawTx bytes :: ts) = .error WorkerError.decodeError) ∧
    (∀ (node : NodeOracle) (now : Nat) (db : DBState) (bytes : List Nat) (tx : Transaction)
        (ts : List Task),
      consensusDecode bytes = some tx → isCoinbase tx = false →
      node.getRawTransactionInfo (computeTxid tx) = .error () →
      runWorker node now db (Task.RawTx bytes :: ts) = runWorker node now db ts) ∧
    (∀ (node : NodeOracle) (now : Nat) (db : DBState) (ts : List Task),
      node.getRawMempool = .error () →
      runWorker node now db (Task.PruneCheck :: ts) = runWorker node now db ts) ∧
    (∀ (node : NodeOracle) (now : Nat) (db : DBState) (bytes : List Nat) (tx : Transaction)
        (ts : List Task) (conf : Option Nat),
      consensusDecode bytes = some tx → isCoinbase tx = false →
      node.getRawTransactionInfo (computeTxid tx) = .ok conf → conf.getD 0 = 0 →
      tx_exists db tx = true → node.getMempoolEntry (computeTxid tx) = .error () →
      runWorker node now db (Task.RawTx bytes :: ts) = runWorker node now db ts) ∧
    (∀ (node : NodeOracle) (now : Nat) (db : DBState) (ts : List Task),
      node.getMempoolInfo = .error () →
      runWorker node now db (Task.MempoolState :: ts) = .error WorkerError.rpcError) := by
  refine ⟨?_, ?_, ?_, ?_, ?_⟩
  · intro node now db bytes ts hdec
    simp [runWorker, runTask, hdec]
  · intro node now db bytes tx ts hdec hcb hrpc
    simp [runWorker, runTask, hdec, hcb, hrpc]
  · intro node now db ts hpoll
    simp [runWorker, runTask, check_for_pruned_txs, hpoll]
  · intro node now db bytes tx ts conf hdec hcb hinfo hconf hex hfee
    simp [runWorker, runTask, hdec, hcb, hinfo, hconf, hex, hfee]
  · intro node now db ts hinfo
    simp [runWorker, runTask, hinfo]

/-- Claim C5, witness: the amended statement at concrete inputs — garbage
bytes make the worker return the decode error, and a failing
transaction-info RPC leaves the worker running on the rest of the queue. -/
theorem c5_witness :
    runWorker c5Node 7 emptyDB [Task.RawTx [9]] = .error WorkerError.decodeError ∧
    runWorker
      ⟨fun _ => .error (), fun _ => .ok 0, .ok [], .ok (0, 0), .ok 0, fun _ => .ok []⟩
      7 emptyDB [Task.RawTx (consensusEncode c6Tx), Task.MempoolState] =
    runWorker
      ⟨fun _ => .error (), fun _ => .ok 0, .ok [], .ok (0, 0), .ok 0, fun _ => .ok []⟩
      7 emptyDB [Task.MempoolState] :=
  ⟨c5_thm.1 c5Node 7 emptyDB [9] [] (by decide),
   c5_thm.2.1 _ 7 emptyDB (consensusEncode c6Tx) c6Tx [Task.MempoolState]
     (by decide) (by decide) rfl⟩

/-! ## Claim C6 — missing-record behaviour of mined and rbf updates -/

/-- Claim C6, counterexample: on a store with no record for the
transaction's inputs hash, `record_mined_tx` succeeds and changes nothing
(its UPDATE matches zero rows — there is no lookup and no NotFound error
path in the source), and `record_rbf` succeeds and inserts its replacement
row with no base record present. -/
theorem c6_counterexample :
    record_mined_tx emptyDB 77 c6Tx = emptyDB ∧
    (record_rbf emptyDB 77 c6Tx 500).rbf =
      [⟨SqlKey.text (get_inputs_hash c6Tx.input), 77, 500⟩] := by
  exact ⟨by decide, by decide⟩

/-- Claim C6, amended: for a transaction whose inputs hash has no row,
`record_mined_tx` returns success leaving the store unchanged, and
`record_rbf` returns success, leaves the `transactions` table unchanged and
inserts its replacement row anyway; neither operation fails with NotFound
(only `record_pruned_tx` has a no-rows error path). -/
theorem c6_thm (db : DBState) (now fee : Nat) (tx : Transaction)
    (h : ∀ r ∈ db.transactions,
      r.inputs_hash ≠ SqlKey.text (get_inputs_hash tx.input)) :
    record_mined_tx db now tx = db ∧
    (record_rbf db now tx fee).transactions = db.transactions ∧
    RbfRow.mk (SqlKey.text (get_inputs_hash tx.input)) now fee ∈
      (record_rbf db now tx fee).rbf := by
  refine ⟨?_, rfl, ?_⟩
  · have h2 : ∀ r ∈ db.transactions,
        (if r.inputs_hash = SqlKey.text (get_inputs_hash (prune_large_witnesses tx).input)
         then { r with mined_at := now, tx_data := consensusEncode (prune_large_witnesses tx) }
         else r) = r := by
      intro r hr
      rw [get_inputs_hash_prune]
      exact if_neg (h r hr)
    simp only [record_mined_tx]
    rw [List.map_congr_left h2]
    simp
  · simp [record_rbf, insertOrReplaceRbf]

/-- Claim C6, witness: the amended statement on the empty store. -/
theorem c6_witness :
    record_mined_tx emptyDB 8 c6Tx = emptyDB ∧
    (record_rbf emptyDB 8 c6Tx 500).transactions = emptyDB.transactions ∧
    RbfRow.mk (SqlKey.text (get_inputs_hash c6Tx.input)) 8 500 ∈
      (record_rbf emptyDB 8 c6Tx 500).rbf :=
  c6_thm emptyDB 8 500 c6Tx (by simp [emptyDB])

/-! ## Claim C7 — witness stripping and the inputs hash -/

/-- Claim C7, counterexample: the insert path stores the transaction's full
consensus bytes — for a transaction with a non-empty witness the stored blob
is its segwit serialization, not the witness-stripped bytes. -/
theorem c7_counterexample :
    ((insert_mempool_tx emptyDB c7Tx none 0 0).transactions.map fun r => r.tx_data) =
      [consensusEncode c7Tx] ∧
    consensusEncode c7Tx ≠ consensusEncode (prune_large_witnesses c7Tx) := by
  exact ⟨by decide, by decide⟩

/-- Claim C7, amended: witness stripping never changes the inputs hash, but
only `record_mined_tx` strips witnesses before persisting —
`insert_mempool_tx` stores the transaction's consensus bytes as they are,
witnesses included. -/
theorem c7_thm :
    (∀ t : Transaction,
      get_inputs_hash (prune_large_witnesses t).input = get_inputs_hash t.input) ∧
    (∀ (db : DBState) (tx : Transaction) (fa : Option Nat) (sz cnt : Nat),
      ((insert_mempool_tx db tx fa sz cnt).transactions.map fun r => r.tx_data).getLast? =
        some (consensusEncode tx)) ∧
    (∀ (db : DBState) (now : Nat) (tx : Transaction),
      (record_mined_tx db now tx).transactions = db.transactions.map fun r =>
        if r.inputs_hash = SqlKey.text (get_inputs_hash tx.input) then
          { r with mined_at := now, tx_data := consensusEncode (prune_large_witnesses tx) }
        else r) := by
  refine ⟨get_inputs_hash_prune, ?_, ?_⟩
  · intro db tx fa sz cnt
    have hsh : (insert_mempool_tx db tx fa sz cnt).transactions.map (fun r => r.tx_data) =
        ((parentLinkPass (computeTxid tx) db.transactions tx.input).filter
          (fun x => decide (x.inputs_hash ≠ SqlKey.text (get_inputs_hash tx.input)))).map
          (fun r => r.tx_data) ++ [consensusEncode tx] := by
      simp [insert_mempool_tx, insertOrReplaceTx]
    rw [hsh, List.getLast?_concat]
  · intro db now tx
    simp only [record_mined_tx, get_inputs_hash_prune]

/-! ## Claim C8 — one row per inputs hash -/

/-- Claim C8: after any insert there is exactly one `transactions` row with
the inserted key and a second identical insert observes `tx_exists` true
(and, replacing the row, keeps the count at one); both row-creating writes
preserve distinctness of the key column; and a replacement re-uses the
existing row — `record_rbf` does not touch the `transactions` table and the
txid update rewrites rows in place without changing the key column. -/
theorem c8_thm :
    (∀ (db : DBState) (tx : Transaction) (fa : Option Nat) (sz cnt : Nat),
      (insert_mempool_tx db tx fa sz cnt).transactions.countP
        (fun r => decide (r.inputs_hash = SqlKey.text (get_inputs_hash tx.input))) = 1 ∧
      tx_exists (insert_mempool_tx db tx fa sz cnt) tx = true) ∧
    (∀ (db : DBState) (tx : Transaction) (fa : Option Nat) (sz cnt : Nat),
      ((db.transactions.map fun r => r.inputs_hash).Nodup) →
      ((insert_mempool_tx db tx fa sz cnt).transactions.map fun r => r.inputs_hash).Nodup) ∧
    (∀ (db : DBState) (now : Nat) (tx : Transaction) (sz cnt : Nat),
      ((db.transactions.map fun r => r.inputs_hash).Nodup) →
      ((record_coinbase_tx db now tx sz cnt).transactions.map fun r => r.inputs_hash).Nodup) ∧
    (∀ (db : DBState) (now : Nat) (tx : Transaction) (fee : Nat),
      (record_rbf db now tx fee).transactions = db.transactions) ∧
    (∀ (db : DBState) (tx : Transaction),
      (update_txid_by_inputs_hash db tx).transactions.map (fun r => r.inputs_hash) =
        db.transactions.map fun r => r.inputs_hash) := by
  refine ⟨?_, ?_, ?_, fun _ _ _ _ => rfl, ?_⟩
  · intro db tx fa sz cnt
    constructor
    · exact countP_insertOrReplaceTx
        ⟨SqlKey.text (get_inputs_hash tx.input), computeTxid tx, consensusEncode tx,
          fa.getD 0, 0, 0, sz, cnt, none⟩
        (parentLinkPass (computeTxid tx) db.transactions tx.input)
    · simp [tx_exists, insert_mempool_tx, insertOrReplaceTx]
  · intro db tx fa sz cnt hnd
    have h1 : ((parentLinkPass (computeTxid tx) db.transactions tx.input).map
        (fun r => r.inputs_hash)).Nodup := by
      rw [keys_parentLinkPass]
      exact hnd
    exact nodup_keys_insertOrReplaceTx
      ⟨SqlKey.text (get_inputs_hash tx.input), computeTxid tx, consensusEncode tx,
        fa.getD 0, 0, 0, sz, cnt, none⟩
      (parentLinkPass (computeTxid tx) db.transactions tx.input) h1
  · intro db now tx sz cnt hnd
    by_cases hcb : isCoinbase tx
    · simp only [record_coinbase_tx, hcb, Bool.not_true, Bool.false_eq_true, if_false]
      exact nodup_keys_insertOrReplaceTx
        ⟨SqlKey.blob (computeTxid tx), computeTxid tx, consensusEncode tx,
          now, 0, 0, sz, cnt, none⟩ db.transactions hnd
    · simp only [Bool.not_eq_true] at hcb
      simp only [record_coinbase_tx, hcb, Bool.not_false, if_true]
      exact hnd
  · intro db tx
    exact keys_map_of_preserve db.transactions _ fun r => by
      by_cases hr : r.inputs_hash = SqlKey.text (get_inputs_hash tx.input) <;> simp [hr]

/-- Claim C8, witness: on the empty store a first insert leaves exactly one
row for the key and keeps the key column distinct, and the second identical
insert observes the record as already existing. -/
theorem c8_witness :
    (insert_mempool_tx emptyDB c6Tx none 0 0).transactions.countP
      (fun r => decide (r.inputs_hash = SqlKey.text (get_inputs_hash c6Tx.input))) = 1 ∧
    tx_exists (insert_mempool_tx (insert_mempool_tx emptyDB c6Tx none 0 0) c6Tx none 0 0)
      c6Tx = true ∧
    ((insert_mempool_tx emptyDB c6Tx none 0 0).transactions.map fun r => r.inputs_hash).Nodup :=
  ⟨(c8_thm.1 emptyDB c6Tx none 0 0).1,
   (c8_thm.1 (insert_mempool_tx emptyDB c6Tx none 0 0) c6Tx none 0 0).2,
   c8_thm.2.1 emptyDB c6Tx none 0 0 (by simp [emptyDB])⟩

/-! ## Claim C9 — the mined round trip and its frame -/

/-- Claim C9: a record inserted with `found_at = T` then marked mined at `M`
reads back with `found_at = T` unchanged, `mined_at = M`, `pruned_at` still
the sentinel (and the refreshed bytes are the witness-stripped encoding);
and `record_mined_tx` touches nothing but the matched rows' `mined_at` and
`tx_data` — projecting those two fields away, the whole store is
unchanged. -/
theorem c9_thm :
    (∀ (db : DBState) (tx : Transaction) (T M sz cnt : Nat),
      (record_mined_tx (insert_mempool_tx db tx (some T) sz cnt) M tx).transactions.find?
          (fun r => decide (r.inputs_hash = SqlKey.text (get_inputs_hash tx.input))) =
        some ⟨SqlKey.text (get_inputs_hash tx.input), computeTxid tx,
          consensusEncode (prune_large_witnesses tx), T, M, 0, sz, cnt, none⟩) ∧
    (∀ (db : DBState) (now : Nat) (tx : Transaction),
      (record_mined_tx db now tx).transactions.map eraseMinedData =
        db.transactions.map eraseMinedData ∧
      (record_mined_tx db now tx).rbf = db.rbf ∧
      (record_mined_tx db now tx).snapshots = db.snapshots) := by
  constructor
  · intro db tx T M sz cnt
    have hshape : (record_mined_tx (insert_mempool_tx db tx (some T) sz cnt) M tx).transactions =
        (insert_mempool_tx db tx (some T) sz cnt).transactions.map (fun r =>
          if r.inputs_hash = SqlKey.text (get_inputs_hash tx.input) then
            { r with mined_at := M, tx_data := consensusEncode (prune_large_witnesses tx) }
          else r) := by
      simp only [record_mined_tx, get_inputs_hash_prune]
    rw [hshape]
    rw [find?_map_key_preserve _ _ _ fun r => by
      by_cases hr : r.inputs_hash = SqlKey.text (get_inputs_hash tx.input) <;> simp [hr]]
    have hfind : (insert_mempool_tx db tx (some T) sz cnt).transactions.find?
        (fun r => decide (r.inputs_hash = SqlKey.text (get_inputs_hash tx.input))) =
        some ⟨SqlKey.text (get_inputs_hash tx.input), computeTxid tx, consensusEncode tx,
          T, 0, 0, sz, cnt, none⟩ :=
      find?_insertOrReplaceTx
        ⟨SqlKey.text (get_inputs_hash tx.input), computeTxid tx, consensusEncode tx,
          T, 0, 0, sz, cnt, none⟩
        (parentLinkPass (computeTxid tx) db.transactions tx.input)
    rw [hfind]
    simp
  · intro db now tx
    refine ⟨?_, rfl, rfl⟩
    simp only [record_mined_tx, List.map_map]
    apply List.map_congr_left
    intro r hr
    by_cases hc : r.inputs_hash =
        SqlKey.text (get_inputs_hash (prune_large_witnesses tx).input) <;>
      simp [Function.comp, hc, eraseMinedData]

/-! ## Claim C10 — pruning a consensus-encoded record -/

/-- Claim C10, counterexample: `record_pruned_tx` does not return an error
for every record created by `insert_mempool_tx` — for this crafted
transaction the stored consensus bytes happen to parse as a bincode
`TransactionInner`, so the call succeeds (silently rewriting the blob). -/
theorem c10_counterexample :
    (record_pruned_tx (insert_mempool_tx emptyDB c10Tx none 0 0) (9, 0) c10Tx).toOption.isSome =
      true := by decide

/-- Claim C10, amended: `record_pruned_tx` bincode-deserializes the stored
`tx_data` and fails with its bincode error whenever the consensus bytes
stored by `insert_mempool_tx` do not parse as a `TransactionInner` — in
particular always when those bytes are shorter than 68, the minimum size of
a bincode `TransactionInner`; a contrived byte-level collision can parse,
and then the call succeeds.  In every successful case it rewrites only the
`tx_data` blob — projecting `tx_data` away, the `transactions` table and
the rest of the store are unchanged, so the `pruned_at` column keeps its
value. -/
theorem c10_thm :
    (∀ (db : DBState) (now : Nat × Nat) (tx : Transaction) (db2 : DBState),
      record_pruned_tx db now tx = .ok db2 →
      db2.transactions.map eraseTxData = db.transactions.map eraseTxData ∧
      db2.rbf = db.rbf ∧ db2.snapshots = db.snapshots) ∧
    (∀ (db : DBState) (tx : Transaction) (fa : Option Nat) (sz cnt : Nat) (now : Nat × Nat),
      decodeTransactionInner (consensusEncode tx) = none →
      record_pruned_tx (insert_mempool_tx db tx fa sz cnt) now tx =
        .error DbError.bincodeError) ∧
    (∀ (db : DBState) (tx : Transaction) (fa : Option Nat) (sz cnt : Nat) (now : Nat × Nat),
      (consensusEncode tx).length < 68 →
      record_pruned_tx (insert_mempool_tx db tx fa sz cnt) now tx =
        .error DbError.bincodeError) := by
  have key : ∀ (db : DBState) (tx : Transaction) (fa : Option Nat) (sz cnt : Nat)
      (now : Nat × Nat),
      decodeTransactionInner (consensusEncode tx) = none →
      record_pruned_tx (insert_mempool_tx db tx fa sz cnt) now tx =
        .error DbError.bincodeError := by
    intro db tx fa sz cnt now hdec
    simp only [record_pruned_tx]
    have hfind : (insert_mempool_tx db tx fa sz cnt).transactions.find?
        (fun r => decide (r.inputs_hash = SqlKey.text (get_inputs_hash tx.input))) =
        some ⟨SqlKey.text (get_inputs_hash tx.input), computeTxid tx, consensusEncode tx,
          fa.getD 0, 0, 0, sz, cnt, none⟩ :=
      find?_insertOrReplaceTx
        ⟨SqlKey.text (get_inputs_hash tx.input), computeTxid tx, consensusEncode tx,
          fa.getD 0, 0, 0, sz, cnt, none⟩
        (parentLinkPass (computeTxid tx) db.transactions tx.input)
    rw [hfind]
    simp [hdec]
  refine ⟨?_, key, ?_⟩
  · intro db now tx db2 hok
    simp only [record_pruned_tx] at hok
    split at hok
    · cases hok
    · split at hok
      · cases hok
      · injection hok with hdb2
        subst hdb2
        refine ⟨?_, rfl, rfl⟩
        simp only [List.map_map]
        apply List.map_congr_left
        intro r hr
        by_cases hc : r.inputs_hash = SqlKey.text (get_inputs_hash tx.input) <;>
          simp [Function.comp, hc, eraseTxData]
  · intro db tx fa sz cnt now hlen
    cases hdec : decodeTransactionInner (consensusEncode tx) with
    | none => exact key db tx fa sz cnt now hdec
    | some ti =>
        exact absurd (decodeTransactionInner_min_length _ ti hdec) (by omega)

/-- Claim C10, witness: a concrete 51-byte transaction is below the 68-byte
bincode minimum, its stored bytes do not parse as a `TransactionInner`, and
the prune call errors. -/
theorem c10_witness :
    (consensusEncode c10SmallTx).length < 68 ∧
    decodeTransactionInner (consensusEncode c10SmallTx) = none ∧
    record_pruned_tx (insert_mempool_tx emptyDB c10SmallTx none 0 0) (9, 0) c10SmallTx =
      .error DbError.bincodeError :=
  ⟨by decide, by decide,
   c10_thm.2.2 emptyDB c10SmallTx none 0 0 (9, 0) (by decide)⟩

end MempoolMonitor
